import Mathlib

/-!
Shallow embedding of the host-introspection core of the `kgo` repository
(`src/os.go`): the `/proc/net` port resolver `GetPidByPort`, the
`/proc/cpuinfo` topology reader `GetCpuInfo`, and the snapshot aggregator
`GetSystemInfo` with its `CpuUsage` / `MemoryUsage` / `DiskUsage`
collectors.

Modelling conventions: Go strings are `String` / `List Char`; machine
`uint64` arithmetic is `Nat` with an explicit `% 2 ^ 64` where overflow
can occur; a Go runtime panic (an out-of-range slice index) is
`Option.none`; the contents of kernel files are passed as explicit
parameters, in the state the Go code would read them.
-/

namespace KgoOs

/-- Whitespace as consumed by Go's `strings.Fields` (the ASCII forms that
occur in `/proc` text: space, tab, LF, CR). -/
def isWS (c : Char) : Bool :=
  (c == ' ') || (c == '\t') || (c == '\n') || (c == '\r')

/-- Embedding of `strings.Fields`: split on runs of whitespace, producing
no empty fields.  `acc` holds the characters of the current field in
reverse. -/
def goFieldsAux : List Char → List Char → List (List Char)
  | acc, [] => if acc = [] then [] else [acc.reverse]
  | acc, c :: rest =>
    if isWS c then
      if acc = [] then goFieldsAux [] rest
      else acc.reverse :: goFieldsAux [] rest
    else goFieldsAux (c :: acc) rest

/-- `strings.Fields` on a `String`. -/
def goFieldsS (s : String) : List String :=
  (goFieldsAux [] s.data).map String.mk

/-- Embedding of `strings.Split` with a one-character separator: for `n`
separator occurrences it returns `n + 1` parts (so it never returns an
empty list). -/
def splitChar (sep : Char) : List Char → List (List Char)
  | [] => [[]]
  | c :: rest =>
    if c = sep then [] :: splitChar sep rest
    else
      match splitChar sep rest with
      | [] => [[c]]
      | p :: ps => (c :: p) :: ps

/-- `strings.Split(s, sep)` on a `String`. -/
def goSplit (sep : Char) (s : String) : List String :=
  (splitChar sep s.data).map String.mk

/-- Does the first list occur at the head of the second
(`strings.HasPrefix` on character lists)? -/
def leadsWith : List Char → List Char → Bool
  | [], _ => true
  | _ :: _, [] => false
  | a :: as, b :: bs => (a == b) && leadsWith as bs

/-- Embedding of `strings.Contains`: does `needle` occur as a contiguous
substring of the second argument? -/
def containsSub (needle : List Char) : List Char → Bool
  | [] => leadsWith needle []
  | c :: rest => leadsWith needle (c :: rest) || containsSub needle rest

/-- `strings.HasPrefix` on `String`s. -/
def strLeads (pre s : String) : Bool := leadsWith pre.data s.data

/-- Decimal value of a digit list, most significant digit first. -/
def natOfDigits : List Char → ℕ → ℕ
  | [], acc => acc
  | c :: rest, acc => natOfDigits rest (acc * 10 + (c.toNat - '0'.toNat))

/-- Embedding of `val, _ := strconv.ParseUint(s, 10, 64)` with the error
discarded, as the Go code does: a non-empty all-digit string yields its
value, clipped to `2 ^ 64 - 1` (on range errors `ParseUint` returns
`MaxUint64` together with the error the caller drops); anything else is
a syntax error and yields the zero value. -/
def parseUintGo (s : String) : ℕ :=
  if s.data ≠ [] ∧ s.data.all Char.isDigit then
    min (natOfDigits s.data 0) (2 ^ 64 - 1)
  else 0

/-- Is `c` a hexadecimal digit? -/
def isHexDig (c : Char) : Bool :=
  c.isDigit || (decide ('a' ≤ c) && decide (c ≤ 'f')) ||
    (decide ('A' ≤ c) && decide (c ≤ 'F'))

/-- Numeric value of one hexadecimal digit. -/
def hexDigVal (c : Char) : ℕ :=
  if c.isDigit then c.toNat - '0'.toNat
  else if decide ('a' ≤ c) && decide (c ≤ 'f') then c.toNat - 'a'.toNat + 10
  else c.toNat - 'A'.toNat + 10

/-- Value of a hexadecimal digit list, most significant digit first. -/
def hexFold : List Char → ℕ → ℕ
  | [], acc => acc
  | c :: rest, acc => hexFold rest (acc * 16 + hexDigVal c)

/-- Modelled from the spec: `KConv.Hex2Dec`, the "hexadecimal-string-
to-integer converter" used "for port decoding" (spec section 6), is not
part of `src/os.go`.  A non-empty hexadecimal string decodes to its
value; the Go caller discards the error return, so any other input
yields the zero value. -/
def hex2Dec (s : String) : ℕ :=
  if s.data ≠ [] ∧ s.data.all isHexDig then hexFold s.data 0 else 0

/-- Go `uint64` subtraction with wrap-around. -/
def wsub (a b : ℕ) : ℕ := (a % 2 ^ 64 + 2 ^ 64 - b % 2 ^ 64) % 2 ^ 64

/-! ## Port resolver (os.go: GetPidByPort, lines 746-785)

The four `/proc/net` tables are passed as a list of line sequences, in
the fixed order the Go code reads them: tcp, udp, tcp6, udp6.  Each
element is exactly what the collaborator line reader
`KFile.ReadInArray` produced for that file. -/

/-- One enumerated descriptor path `/proc/(pid)/fd/(fd)` together with
the text its symlink resolves to. -/
structure FdEntry where
  pid : ℕ
  target : String
  deriving DecidableEq, Repr

/-- Modelled from the spec (section 4.2): `getPidByInode` is called by
`GetPidByPort` but is not part of `src/os.go`.  It scans the enumerated
descriptor entries in order and returns the pid of the first entry whose
symlink target contains the bracketed inode — the kernel encodes socket
descriptors as `socket:[inode]` — or `0` when none matches. -/
def getPidByInode (inode : String) (entries : List FdEntry) : ℕ :=
  match entries.find? (fun e =>
      containsSub ("socket:[" ++ inode ++ "]").data e.target.data) with
  | some e => e.pid
  | none => 0

/-- One loop body of `GetPidByPort` (os.go:758-780) on a single table
line.  `none` is a panic: a line with at least ten fields and state
`"0A"` whose local-address field contains no colon makes `ipport[1]`
index out of range.  `some none` means the line is skipped or its inode
resolves to no positive pid; `some (some pid)` triggers the early
return. -/
def scanLine (port : ℕ) (entries : List FdEntry) (line : String) :
    Option (Option ℕ) :=
  let fields := goFieldsS line
  if fields.length < 10 then some none
  else if fields.getD 3 "" ≠ "0A" then some none
  else
    match goSplit ':' (fields.getD 1 "") with
    | _ :: p1 :: _ =>
      if hex2Dec p1 ≠ port then some none
      else
        let pid := getPidByInode (fields.getD 9 "") entries
        if 0 < pid then some (some pid) else some none
    | _ => none

/-- The inner loop of `GetPidByPort` over the lines of one table (after
the header has been dropped), with its early return on a positive
pid. -/
def scanLines (port : ℕ) (entries : List FdEntry) :
    List String → Option (Option ℕ)
  | [] => some none
  | line :: rest =>
    match scanLine port entries line with
    | none => none
    | some (some pid) => some (some pid)
    | some none => scanLines port entries rest

/-- One table of `GetPidByPort`: the Go code iterates `lines[1:]`, which
panics (`none`) when the reader returned no lines at all — slicing an
empty slice from index 1 is out of range — and otherwise unconditionally
discards the first line. -/
def scanTable (port : ℕ) (entries : List FdEntry) :
    List String → Option (Option ℕ)
  | [] => none
  | _ :: body => scanLines port entries body

/-- The outer loop of `GetPidByPort` over the protocol tables, in their
fixed order, with the early return threaded through. -/
def scanTables (port : ℕ) (entries : List FdEntry) :
    List (List String) → Option (Option ℕ)
  | [] => some none
  | t :: ts =>
    match scanTable port entries t with
    | none => none
    | some (some pid) => some (some pid)
    | some none => scanTables port entries ts

/-- Embedding of `GetPidByPort` (os.go:746-785).  `tables` carries the
line sequences the reader produced for `/proc/net/tcp`, `udp`, `tcp6`,
`udp6` in that fixed order; `entries` the descriptor enumeration.  The
result is the first positive pid found, `some 0` when no record matches,
and `none` when the scan panics. -/
def GetPidByPort (port : ℕ) (entries : List FdEntry)
    (tables : List (List String)) : Option ℕ :=
  (scanTables port entries tables).map (fun r => r.getD 0)

/-! ### Specification-side description of the resolver (spec section 4.3),
used to state claim C2 as a refinement. -/

/-- Specification-side reading of one line: a record with at least ten
whitespace fields, listening state code `"0A"`, and hex-decoded local
port equal to `port` yields the pid its inode resolves to (possibly 0);
any other line yields nothing. -/
def candOf (port : ℕ) (entries : List FdEntry) (line : String) : Option ℕ :=
  let fields := goFieldsS line
  if 10 ≤ fields.length ∧ fields.getD 3 "" = "0A" ∧
      hex2Dec ((goSplit ':' (fields.getD 1 "")).getD 1 "") = port then
    some (getPidByInode (fields.getD 9 "") entries)
  else none

/-- A line the Go scan can process without panicking: it is either
skipped before the local-address split (fewer than ten fields, or not in
listening state) or its local-address field splits on `:` into at least
two parts. -/
def lineOK (line : String) : Prop :=
  (goFieldsS line).length < 10 ∨ (goFieldsS line).getD 3 "" ≠ "0A" ∨
    2 ≤ (goSplit ':' ((goFieldsS line).getD 1 "")).length

instance (line : String) : Decidable (lineOK line) := by
  unfold lineOK; infer_instance

/-- The candidate pids of all tables: headers dropped, lines filtered to
matching listening records, each mapped through the inode matcher, in
table order. -/
def candPids (port : ℕ) (entries : List FdEntry)
    (tables : List (List String)) : List ℕ :=
  (tables.map (fun t => (t.drop 1).filterMap (candOf port entries))).flatten

/-! ## Demonstration inputs (the synthetic table of spec section 8) -/

/-- A synthetic `/proc/net/tcp` header line. -/
def demoHdr : String := "sl local_address rem_address st"

/-- A synthetic listening-state record on port 8080 (hex `1F90`) with
inode 12345. -/
def demoRec : String :=
  "0: 00000000:1F90 00000000:0000 0A 00000000:00000000 00:00000000 00000000 0 0 12345 1"

/-- A table holding only a header. -/
def demoHdrOnly : List String := [demoHdr]

/-- The synthetic descriptor enumeration: pid 777 owns a descriptor
targeting `socket:[12345]`. -/
def demoEntries : List FdEntry := [⟨777, "socket:[12345]"⟩]

/-- The four protocol tables with the listening record in the tcp
table. -/
def demoTables : List (List String) :=
  [[demoHdr, demoRec], demoHdrOnly, demoHdrOnly, demoHdrOnly]

/-! ## CPU topology reader (os.go: GetCpuInfo, lines 662-724) -/

/-- State machine for `cpuRegExtraSpace.ReplaceAllLiteralString(s, " ")`
with the pattern "one or more spaces" (os.go:84, 697): every maximal run
of spaces is replaced by a single space.  The flag records whether the
scan is inside a run whose first space has already been emitted. -/
def collapseAux : Bool → List Char → List Char
  | _, [] => []
  | inRun, c :: rest =>
    if c = ' ' then
      if inRun then collapseAux true rest
      else ' ' :: collapseAux true rest
    else c :: collapseAux false rest

/-- The space-collapsing pass of the model-name cleanup (os.go:697). -/
def collapseSpaces (l : List Char) : List Char := collapseAux false l

/-- Specification-side space normalization, written from the spec's
words: collapse every run of two or more spaces to a single space
(adjacent duplicate spaces are repeatedly dropped). -/
def specCollapse : List Char → List Char
  | [] => []
  | c :: rest =>
    if c = ' ' then
      match rest with
      | [] => [c]
      | c2 :: rest2 =>
        if c2 = ' ' then specCollapse (c2 :: rest2)
        else c :: specCollapse (c2 :: rest2)
    else c :: specCollapse rest

/-- Embedding of `strings.Replace(s, "- ", "-", 1)` (os.go:698): the
first occurrence of hyphen-space becomes a bare hyphen; everything else
is unchanged. -/
def replaceHyphenSpace : List Char → List Char
  | [] => []
  | c :: rest =>
    if c = '-' then
      match rest with
      | [] => [c]
      | c2 :: rest2 =>
        if c2 = ' ' then c :: rest2
        else c :: replaceHyphenSpace (c2 :: rest2)
    else c :: replaceHyphenSpace rest

/-- The full model-name normalization of `GetCpuInfo` (os.go:696-698):
collapse space runs, then canonicalize the first hyphen-space. -/
def normModel (s : String) : String :=
  String.mk (replaceHyphenSpace (collapseSpaces s.data))

/-- Embedding of `cpuRegCacheSize` (os.go:85), the anchored pattern
"one-or-more digits, space, K, B" with its single capture group,
composed with `strconv.ParseUint(m, 10, 64)` (os.go:707): `none` when
the pattern does not match or the digit value overflows `uint64` (a
range error the Go code does not ignore here). -/
def cacheOf (s : String) : Option ℕ :=
  let ds := s.data.takeWhile Char.isDigit
  if ds ≠ [] ∧ s.data.dropWhile Char.isDigit = [' ', 'K', 'B'] ∧
      natOfDigits ds 0 < 2 ^ 64 then
    some (natOfDigits ds 0)
  else none

/-- After one tab has been consumed: skip further tabs and demand the
literal colon-space that ends the `cpuRegTwoColumns` pattern
(os.go:83). -/
def afterTabsColon : List Char → Option (List Char)
  | ':' :: ' ' :: v => some v
  | '\t' :: rest => afterTabsColon rest
  | _ => none

/-- Find the first match of the pattern "one or more tabs, colon, space"
and split there; `acc` holds the characters before the match in reverse.
A run of tabs not followed by colon-space cannot match at any of its
positions, so the scan just moves on. -/
def tabSplitAux : List Char → List Char → Option (List Char × List Char)
  | _, [] => none
  | acc, c :: rest =>
    if c = '\t' then
      match afterTabsColon rest with
      | some v => some (acc.reverse, v)
      | none => tabSplitAux (c :: acc) rest
    else tabSplitAux (c :: acc) rest

/-- Embedding of `cpuRegTwoColumns.Split(line, 2)` (os.go:682): Go
returns the two parts around the first match, or a one-element slice
holding the whole line when the pattern does not occur; the latter is
`none` here. -/
def cpuSplit2 (s : String) : Option (String × String) :=
  match tabSplitAux [] s.data with
  | some (l, r) => some (String.mk l, String.mk r)
  | none => none

/-- Insertion into a `map[string]bool` used as a set (os.go:686, 689):
only membership and cardinality are ever observed. -/
def insertOnce (x : String) (l : List String) : List String :=
  if x ∈ l then l else x :: l

/-- The `CpuInfo` record of os.go:72-80. -/
structure CpuInfo where
  vendor : String
  model : String
  speed : String
  cache : ℕ
  cpus : ℕ
  cores : ℕ
  threads : ℕ
  deriving DecidableEq, Repr

/-- The accumulating state of the `GetCpuInfo` scan loop: the `cpu` and
`core` sets, the most recently seen physical id `cpuID`, and the
first-seen string fields. -/
structure CpuAcc where
  cpu : List String
  core : List String
  cpuID : String
  vendor : String
  model : String
  speed : String
  cache : ℕ
  deriving DecidableEq, Repr

/-- The initial scan state: empty sets, zero values. -/
def cpuAccInit : CpuAcc := ⟨[], [], "", "", "", "", 0⟩

/-- The `switch sl[0]` body of `GetCpuInfo` (os.go:683-712) for a line
that did split into key and value. -/
def kvStep (st : CpuAcc) (k v : String) : CpuAcc :=
  if k = "physical id" then
    { st with cpuID := v, cpu := insertOnce v st.cpu }
  else if k = "core id" then
    { st with core := insertOnce (st.cpuID ++ "/" ++ v) st.core }
  else if k = "vendor_id" then
    { st with vendor := if st.vendor = "" then v else st.vendor }
  else if k = "model name" then
    { st with model := if st.model = "" then normModel v else st.model }
  else if k = "cpu MHz" then
    { st with speed := if st.speed = "" then v else st.speed }
  else if k = "cache size" then
    { st with cache := if st.cache = 0 then (cacheOf v).getD 0 else st.cache }
  else st

/-- One scanner iteration of `GetCpuInfo`.  When the pattern does not
split the line, Go's `Split` returns the one-element slice holding the
whole line, the `switch` matches it against the six keys, and each
matching case indexes `sl[1]` — out of range, a panic (`none`).  The
`vendor_id`, `model name`, `cpu MHz` and `cache size` cases only reach
`sl[1]` while their first-seen guard still holds. -/
def stepCpu (st : CpuAcc) (line : String) : Option CpuAcc :=
  match cpuSplit2 line with
  | some (k, v) => some (kvStep st k v)
  | none =>
    if line = "physical id" ∨ line = "core id" then none
    else if line = "vendor_id" then
      if st.vendor = "" then none else some st
    else if line = "model name" then
      if st.model = "" then none else some st
    else if line = "cpu MHz" then
      if st.speed = "" then none else some st
    else if line = "cache size" then
      if st.cache = 0 then none else some st
    else some st

/-- The scan loop of `GetCpuInfo` from a given state. -/
def runCpuFrom (st : CpuAcc) : List String → Option CpuAcc
  | [] => some st
  | line :: rest =>
    match stepCpu st line with
    | none => none
    | some st' => runCpuFrom st' rest

/-- The scan loop of `GetCpuInfo` from the initial state. -/
def runCpu (lines : List String) : Option CpuAcc := runCpuFrom cpuAccInit lines

/-- Embedding of `GetCpuInfo` (os.go:662-724).  The input is the line
sequence of `/proc/cpuinfo`, or `none` when `os.Open` fails, in which
case every parse-derived field keeps its zero/empty default; `Threads`
is `runtime.NumCPU()` in both cases.  The overall `none` is the scan
panic. -/
def GetCpuInfo (input : Option (List String)) (numCPU : ℕ) : Option CpuInfo :=
  match input with
  | none => some ⟨"", "", "", 0, 0, 0, numCPU⟩
  | some lines =>
    (runCpu lines).map (fun st =>
      ⟨st.vendor, st.model, st.speed, st.cache,
        st.cpu.length, st.core.length, numCPU⟩)

/-! ### Specification-side description of the topology counts
(spec section 4.4), used to state claims C5 and C8. -/

/-- The key/value pairs the two-column pattern extracts from the dump,
in order. -/
def keyVals (lines : List String) : List (String × String) :=
  lines.filterMap cpuSplit2

/-- The sequence of "physical id" values, in order of occurrence. -/
def physSeq : List (String × String) → List String
  | [] => []
  | (k, v) :: rest =>
    if k = "physical id" then v :: physSeq rest else physSeq rest

/-- The sequence of (most recently seen physical id, core id) pairs, one
per "core id" occurrence, carrying the current physical id `c`. -/
def pairSeq : List (String × String) → String → List (String × String)
  | [], _ => []
  | (k, v) :: rest, c =>
    if k = "physical id" then pairSeq rest v
    else if k = "core id" then (c, v) :: pairSeq rest c
    else pairSeq rest c

/-- The physical id in effect after processing the list, starting
from `c`. -/
def lastPhys (c : String) : List (String × String) → String
  | [] => c
  | (k, v) :: rest =>
    if k = "physical id" then lastPhys v rest else lastPhys c rest

/-- The compound key the Go code inserts for a (package, core) pair
(os.go:688). -/
def encodeKey (pc : String × String) : String := pc.1 ++ "/" ++ pc.2

/-- Folding `insertOnce` over a list, starting from `acc`. -/
def insertAll (acc : List String) (l : List String) : List String :=
  l.foldl (fun a x => insertOnce x a) acc

/-- Running the key/value switch over an extracted pair list (the
panic-free residue of the scan loop). -/
def runKVs (st : CpuAcc) (kvs : List (String × String)) : CpuAcc :=
  kvs.foldl (fun a kv => kvStep a kv.1 kv.2) st

/-- One well-formed per-logical-processor block of the dump: exactly one
"physical id" entry followed (possibly after other keys) by exactly one
"core id" entry, no other physical/core entries, and a physical id value
free of the `/` separator of the compound key. -/
def BlockOK (b : List (String × String)) : Prop :=
  ∃ p c x y z,
    b = x ++ ("physical id", p) :: y ++ ("core id", c) :: z ∧
    (∀ kv ∈ x ++ y ++ z, kv.1 ≠ "physical id" ∧ kv.1 ≠ "core id") ∧
    ('/' : Char) ∉ p.data

/-- A well-formed dump: a concatenation of well-formed blocks, one per
logical processor. -/
inductive WFDump : List (String × String) → ℕ → Prop
  | nil : WFDump [] 0
  | cons (b rest : List (String × String)) (n : ℕ) :
      BlockOK b → WFDump rest n → WFDump (b ++ rest) (n + 1)

/-- The synthetic dump of spec section 8: two blocks each reporting
physical id 0, one of them also reporting core id 1. -/
def demoDumpC5 : List String :=
  ["physical id\t: 0", "core id\t: 1", "physical id\t: 0"]

/-- A well-formed two-processor dump: one package, two cores. -/
def demoDumpC8 : List String :=
  ["physical id\t: 0", "core id\t: 0", "physical id\t: 0", "core id\t: 1"]

/-! ## Snapshot aggregator (os.go: CpuUsage 320-346, MemoryUsage 281-314,
DiskUsage 352-361, GetSystemInfo 596-639) -/

/-- Go `uint64` sum of a list (each addition wraps). -/
def natSum64 (l : List ℕ) : ℕ := l.foldl (fun a v => (a + v) % 2 ^ 64) 0

/-- The line loop of `CpuUsage` (os.go:324-342).  `strings.Fields` of an
empty or all-whitespace line is empty, so `fields[0]` is an
out-of-range index — a panic (`none`) — whenever such a line occurs
before the aggregate `cpu` line.  On the `cpu` line, field 1 is `user`,
field 4 is `idle`, and every numeric field is tallied into `total`. -/
def cpuLoop : List String → Option (ℕ × ℕ × ℕ)
  | [] => some (0, 0, 0)
  | line :: rest =>
    match goFieldsS line with
    | [] => none
    | f0 :: fs =>
      if f0 = "cpu" then
        let vals := fs.map parseUintGo
        some (vals.headD 0, vals.getD 3 0, natSum64 vals)
      else cpuLoop rest

/-- Embedding of `CpuUsage` (os.go:320-346) as a function of the text of
`/proc/stat` (the empty string both for a missing file, whose read error
is discarded, and for an empty one).  Returns `(user, idle, total)` in
jiffies, or `none` when the loop panics. -/
def CpuUsage (contents : String) : Option (ℕ × ℕ × ℕ) :=
  if contents = "" then some (0, 0, 0)
  else cpuLoop ((splitChar '\n' contents.data).map String.mk)

/-- The unguarded `float64(a) / float64(b)` of `GetSystemInfo`
(os.go:603-604).  For `b ≠ 0` the finite quotient is abstracted to the
exact rational; for `b = 0` IEEE-754 division yields NaN (here always
`0/0`, since a zero total forces a zero numerator) — a non-finite value,
never a finite number — modelled as `none`. -/
def floatDiv (a b : ℕ) : Option ℚ :=
  if b = 0 then none else some ((a : ℚ) / (b : ℚ))

/-- The line loop of `MemoryUsage(virtual: true)` (os.go:286-298) over
`/proc/meminfo`, threading the `(total, free)` bytes: only lines with
exactly three fields are read, `MemTotal`/`MemFree` prefixes select the
field, and the kB value is scaled by 1024 in `uint64` arithmetic. -/
def memLoop : List String → ℕ × ℕ → ℕ × ℕ
  | [], tf => tf
  | line :: rest, (t, f) =>
    let fields := goFieldsS line
    if fields.length = 3 then
      let val := parseUintGo (fields.getD 1 "")
      if strLeads "MemTotal" (fields.getD 0 "") then
        memLoop rest (val * 1024 % 2 ^ 64, f)
      else if strLeads "MemFree" (fields.getD 0 "") then
        memLoop rest (t, val * 1024 % 2 ^ 64)
      else memLoop rest (t, f)
    else memLoop rest (t, f)

/-- Embedding of `MemoryUsage(virtual: true)` (os.go:281-314) as a
function of the text of `/proc/meminfo` (empty when the file is missing,
which leaves every output at zero exactly as the discarded read error
does).  Returns `(used, free, total)` with `used = total - free` in
`uint64` arithmetic. -/
def MemoryUsage (contents : String) : ℕ × ℕ × ℕ :=
  let tf := memLoop ((splitChar '\n' contents.data).map String.mk) (0, 0)
  (wsub tf.1 tf.2, tf.2, tf.1)

/-- Embedding of `DiskUsage` (os.go:352-361): the collaborator
`disk.Usage` either fails (`none`, all outputs zero) or reports
`(total, free)` bytes, from which `used = total - free` in `uint64`
arithmetic.  Returns `(used, free, total)`. -/
def DiskUsage : Option (ℕ × ℕ) → ℕ × ℕ × ℕ
  | none => (0, 0, 0)
  | some (total, free) => (wsub total free, free, total)

/-- The runtime allocator counters `GetSystemInfo` copies out of
`runtime.MemStats` (os.go:598-599, 626-637), including the already
selected last-pause entry `PauseNs[(NumGC+255)%256]`. -/
structure MemStatsGo where
  sys : ℕ
  alloc : ℕ
  totalAlloc : ℕ
  lookups : ℕ
  mallocs : ℕ
  frees : ℕ
  lastGC : ℕ
  nextGC : ℕ
  pauseTotalNs : ℕ
  pauseNsLast : ℕ
  deriving DecidableEq, Repr

/-- The state of every source `GetSystemInfo` reads: runtime counters,
the texts of `/proc/stat` and `/proc/meminfo`, the disk provider's
answer for `/`, and the host facts. -/
structure SysInputs where
  mstat : MemStatsGo
  statContent : String
  diskResult : Option (ℕ × ℕ)
  memContent : String
  hostname : String
  goos : String
  uptimeNs : ℤ
  goroutines : ℕ
  numCPU : ℕ
  deriving DecidableEq, Repr

/-- The `SystemInfo` record of os.go:29-53.  The two CPU ratios are
`Option ℚ`: `none` stands for a non-finite `float64` (NaN or an
infinity). -/
structure SystemInfo where
  serverName : String
  systemOs : String
  runtime : ℤ
  goroutineNum : ℕ
  cpuNum : ℕ
  cpuUser : Option ℚ
  cpuFree : Option ℚ
  diskUsed : ℕ
  diskFree : ℕ
  diskTotal : ℕ
  memUsed : ℕ
  memSys : ℕ
  memFree : ℕ
  memTotal : ℕ
  allocGolang : ℕ
  allocTotal : ℕ
  lookups : ℕ
  mallocs : ℕ
  frees : ℕ
  lastGCTime : ℕ
  nextGC : ℕ
  pauseTotalNs : ℕ
  pauseNs : ℕ
  deriving DecidableEq, Repr

/-- Embedding of `GetSystemInfo` (os.go:596-639): sample the tick
counters, divide without a zero-total guard, collect disk and memory
usage, and assemble the record.  `none` is the panic propagated from
`CpuUsage`. -/
def GetSystemInfo (inp : SysInputs) : Option SystemInfo :=
  match CpuUsage inp.statContent with
  | none => none
  | some (cpuUser, cpuIdle, cpuTotal) =>
    let disk := DiskUsage inp.diskResult
    let memv := MemoryUsage inp.memContent
    some
      { serverName := inp.hostname
        systemOs := inp.goos
        runtime := inp.uptimeNs
        goroutineNum := inp.goroutines
        cpuNum := inp.numCPU
        cpuUser := floatDiv cpuUser cpuTotal
        cpuFree := floatDiv cpuIdle cpuTotal
        diskUsed := disk.1
        diskFree := disk.2.1
        diskTotal := disk.2.2
        memUsed := memv.1
        memSys := inp.mstat.sys
        memFree := memv.2.1
        memTotal := memv.2.2
        allocGolang := inp.mstat.alloc
        allocTotal := inp.mstat.totalAlloc
        lookups := inp.mstat.lookups
        mallocs := inp.mstat.mallocs
        frees := inp.mstat.frees
        lastGCTime := inp.mstat.lastGC
        nextGC := inp.mstat.nextGC
        pauseTotalNs := inp.mstat.pauseTotalNs
        pauseNs := inp.mstat.pauseNsLast }

/-- All-zero runtime counters for concrete evaluations. -/
def zeroMstat : MemStatsGo := ⟨0, 0, 0, 0, 0, 0, 0, 0, 0, 0⟩

/-- Inputs whose `/proc/stat` sample has a zero tick total: the
aggregate cpu line reports all-zero counters. -/
def zeroTickInputs : SysInputs :=
  ⟨zeroMstat, "cpu 0 0 0 0", none, "", "", "linux", 0, 0, 0⟩

/-- Inputs whose `/proc/stat` text is a single newline, so its first
line is blank. -/
def blankStatInputs : SysInputs :=
  ⟨zeroMstat, "\n", none, "", "", "linux", 0, 0, 0⟩

/-- Inputs with the tick sample of spec section 8: user 10, idle 40 of a
tick total 100. -/
def tickSampleInputs : SysInputs :=
  ⟨zeroMstat, "cpu 10 20 30 40", none, "", "", "linux", 0, 0, 0⟩

/-- The shape of values the cache-size pattern accepts, written from the
claim: a non-empty digit string followed by exactly " KB", whose decimal
value is `n` (within the 64-bit parse range). -/
def patternKB (s : String) (n : ℕ) : Prop :=
  ∃ ds : List Char, ds ≠ [] ∧ (∀ c ∈ ds, c.isDigit = true) ∧
    s.data = ds ++ [' ', 'K', 'B'] ∧ n = natOfDigits ds 0 ∧ n < 2 ^ 64

/-! ## Lemmas about the port-resolver scan -/

lemma scanLine_skip (port : ℕ) (entries : List FdEntry) (line : String)
    (h : (goFieldsS line).length < 10) :
    scanLine port entries line = some none := by
  simp [scanLine, h, -List.getD_eq_getElem?_getD]

lemma scanLine_eq (port : ℕ) (entries : List FdEntry) (line : String)
    (h : lineOK line) :
    scanLine port entries line =
      some ((candOf port entries line).bind
        (fun pid => if 0 < pid then some pid else none)) := by
  rcases Nat.lt_or_ge (goFieldsS line).length 10 with h10 | h10
  · have hn : ¬ (10 ≤ (goFieldsS line).length ∧
        (goFieldsS line).getD 3 "" = "0A" ∧
        hex2Dec ((goSplit ':' ((goFieldsS line).getD 1 "")).getD 1 "") = port) := by
      rintro ⟨hle, -⟩; omega
    simp [scanLine, candOf, h10, hn, -List.getD_eq_getElem?_getD]
  · have h10' : ¬ (goFieldsS line).length < 10 := by omega
    by_cases hst : (goFieldsS line).getD 3 "" = "0A"
    · have hsp : 2 ≤ (goSplit ':' ((goFieldsS line).getD 1 "")).length := by
        rcases h with h | h | h
        · omega
        · exact absurd hst h
        · exact h
      obtain ⟨a, b, t, hab⟩ :
          ∃ a b t, goSplit ':' ((goFieldsS line).getD 1 "") = a :: b :: t := by
        rcases e : goSplit ':' ((goFieldsS line).getD 1 "") with _ | ⟨a, rest⟩
        · rw [e] at hsp; simp at hsp
        · rcases rest with _ | ⟨b, t⟩
          · rw [e] at hsp; simp at hsp
          · exact ⟨a, b, t, rfl⟩
      by_cases hport : hex2Dec b = port
      · by_cases hpid : 0 < getPidByInode ((goFieldsS line).getD 9 "") entries
        · simp [scanLine, candOf, h10', hst, hab, hport, h10, hpid,
            -List.getD_eq_getElem?_getD]
        · simp [scanLine, candOf, h10', hst, hab, hport, h10, hpid,
            -List.getD_eq_getElem?_getD]
      · simp [scanLine, candOf, h10', hst, hab, hport, h10,
          -List.getD_eq_getElem?_getD]
    · have hn : ¬ (10 ≤ (goFieldsS line).length ∧
          (goFieldsS line).getD 3 "" = "0A" ∧
          hex2Dec ((goSplit ':' ((goFieldsS line).getD 1 "")).getD 1 "") = port) := by
        rintro ⟨-, hx, -⟩; exact hst hx
      simp [scanLine, candOf, h10', hst, hn, -List.getD_eq_getElem?_getD]

lemma scanLines_eq (port : ℕ) (entries : List FdEntry) :
    ∀ body : List String, (∀ l ∈ body, lineOK l) →
      scanLines port entries body =
        some ((body.filterMap (candOf port entries)).find?
          (fun p => decide (0 < p)))
  | [], _ => rfl
  | line :: rest, h => by
    have hline := scanLine_eq port entries line (h line (by simp))
    have ih := scanLines_eq port entries rest (fun l hl => h l (by simp [hl]))
    rcases e : candOf port entries line with _ | pid
    · rw [e] at hline; simp only [Option.bind] at hline
      simp [scanLines, hline, e, ih]
    · rw [e] at hline
      by_cases hpid : 0 < pid
      · simp only [Option.bind, if_pos hpid] at hline
        simp [scanLines, hline, e, hpid]
      · simp only [Option.bind, if_neg hpid] at hline
        simp [scanLines, hline, e, hpid, ih]

lemma scanTables_eq (port : ℕ) (entries : List FdEntry) :
    ∀ tables : List (List String),
      (∀ t ∈ tables, t ≠ []) → (∀ t ∈ tables, ∀ l ∈ t, lineOK l) →
      scanTables port entries tables =
        some ((candPids port entries tables).find? (fun p => decide (0 < p)))
  | [], _, _ => rfl
  | t :: ts, hne, hok => by
    obtain ⟨h, body, rfl⟩ : ∃ h body, t = h :: body := by
      rcases t with _ | ⟨h, body⟩
      · exact absurd rfl (hne _ (by simp))
      · exact ⟨h, body, rfl⟩
    have hsl := scanLines_eq port entries body
      (fun l hl => hok (h :: body) (List.mem_cons_self _ _) l
        (List.mem_cons_of_mem h hl))
    have ih := scanTables_eq port entries ts
      (fun u hu => hne u (List.mem_cons_of_mem _ hu))
      (fun u hu => hok u (List.mem_cons_of_mem _ hu))
    rcases e : (body.filterMap (candOf port entries)).find?
        (fun p => decide (0 < p)) with _ | pid
    · rw [e] at hsl
      simp [scanTables, scanTable, hsl, ih, candPids, List.find?_append, e]
    · rw [e] at hsl
      simp [scanTables, scanTable, hsl, candPids, List.find?_append, e]

lemma scanLines_drop_bad (port : ℕ) (entries : List FdEntry) (bad : String)
    (hb : scanLine port entries bad = some none) :
    ∀ t1 t2 : List String,
      scanLines port entries (t1 ++ bad :: t2) = scanLines port entries (t1 ++ t2)
  | [], t2 => by simp [scanLines, hb]
  | l :: t1, t2 => by
    have ih := scanLines_drop_bad port entries bad hb t1 t2
    cases e : scanLine port entries l with
    | none => simp [scanLines, e]
    | some r =>
      cases r with
      | none => simpa [scanLines, e] using ih
      | some pid => simp [scanLines, e]

lemma scanTables_congr (port : ℕ) (entries : List FdEntry) (X X' : List String)
    (hX : scanTable port entries X = scanTable port entries X') :
    ∀ pre post : List (List String),
      scanTables port entries (pre ++ X :: post) =
        scanTables port entries (pre ++ X' :: post)
  | [], post => by simp [scanTables, hX]
  | t :: pre, post => by
    have ih := scanTables_congr port entries X X' hX pre post
    cases e : scanTable port entries t with
    | none => simp [scanTables, e]
    | some r =>
      cases r with
      | none => simpa [scanTables, e] using ih
      | some pid => simp [scanTables, e]

/-! ## The claims -/

/-- C2: `GetPidByPort` scans the protocol tables in their fixed order
(tcp, udp, tcp6, udp6); among records in listening state `"0A"` whose
hex-decoded local port equals the requested port, it returns the first
positive pid the inode-to-pid match yields, and `0` when no such record
yields one.  Stated as a refinement: on tables the Go scan can process
(every table has its header line, every line is panic-free), the
imperative early-return loop equals "first positive entry of the
candidate-pid list, else 0". -/
theorem claim_C2 (port : ℕ) (entries : List FdEntry)
    (tables : List (List String))
    (hne : ∀ t ∈ tables, t ≠ []) (hok : ∀ t ∈ tables, ∀ l ∈ t, lineOK l) :
    GetPidByPort port entries tables =
      some (((candPids port entries tables).find?
        (fun p => decide (0 < p))).getD 0) := by
  unfold GetPidByPort
  rw [scanTables_eq port entries tables hne hok]
  rfl

/-- Witness for C2, the synthetic table of spec section 8: one listening
record on port 8080 with inode 12345, and pid 777 owning a descriptor
targeting `socket:[12345]`; the resolver returns 777. -/
theorem claim_C2_witness :
    GetPidByPort 8080 demoEntries demoTables = some 777 :=
  (claim_C2 8080 demoEntries demoTables (by decide) (by decide)).trans (by rfl)

/-- C3, refuted (code bug): when a socket table file is missing, the
line reader yields the empty sequence (spec section 4.1/6; the Go code
discards the read error), and `lines[1:]` on an empty slice is an
out-of-range slice — `GetPidByPort` panics instead of returning 0. -/
theorem claim_C3 (port : ℕ) (entries : List FdEntry)
    (rest : List (List String)) :
    GetPidByPort port entries ([] :: rest) = none := rfl

/-- C9: a line with fewer than ten whitespace-separated fields is
skipped (`some none`, never a panic), and deleting such a line from any
position in the body of any table leaves the result of the whole lookup
unchanged. -/
theorem claim_C9 (port : ℕ) (entries : List FdEntry) (bad : String)
    (hb : (goFieldsS bad).length < 10) :
    scanLine port entries bad = some none ∧
    ∀ (pre : List (List String)) (h : String) (t1 t2 : List String)
      (post : List (List String)),
      GetPidByPort port entries (pre ++ (h :: (t1 ++ bad :: t2)) :: post) =
        GetPidByPort port entries (pre ++ (h :: (t1 ++ t2)) :: post) := by
  have hskip := scanLine_skip port entries bad hb
  refine ⟨hskip, fun pre h t1 t2 post => ?_⟩
  have hX : scanTable port entries (h :: (t1 ++ bad :: t2)) =
      scanTable port entries (h :: (t1 ++ t2)) :=
    scanLines_drop_bad port entries bad hskip t1 t2
  unfold GetPidByPort
  congr 1
  exact scanTables_congr port entries _ _ hX pre post

/-- Witness for C9: inserting a three-field line into the synthetic tcp
table does not change the resolver's answer. -/
theorem claim_C9_witness :
    GetPidByPort 8080 demoEntries
        [[demoHdr, "0: 00000000:1F90 0A", demoRec],
          demoHdrOnly, demoHdrOnly, demoHdrOnly] =
      GetPidByPort 8080 demoEntries
        [[demoHdr, demoRec], demoHdrOnly, demoHdrOnly, demoHdrOnly] := by
  have h := (claim_C9 8080 demoEntries "0: 00000000:1F90 0A" (by decide)).2
    [] demoHdr [] [demoRec] [demoHdrOnly, demoHdrOnly, demoHdrOnly]
  simpa using h

/-- C10: `GetPidByPort` discards the first line of every table
unconditionally — the result does not depend on that line's content, a
listening record on the very first line is never considered (the
one-line table yields 0 where the same record behind a header yields
777). -/
theorem claim_C10 :
    (∀ (port : ℕ) (entries : List FdEntry) (pre : List (List String))
        (h h' : String) (t : List String) (post : List (List String)),
      GetPidByPort port entries (pre ++ (h :: t) :: post) =
        GetPidByPort port entries (pre ++ (h' :: t) :: post)) ∧
    GetPidByPort 8080 demoEntries
      [[demoRec], demoHdrOnly, demoHdrOnly, demoHdrOnly] = some 0 ∧
    GetPidByPort 8080 demoEntries
      [[demoHdr, demoRec], demoHdrOnly, demoHdrOnly, demoHdrOnly] = some 777 := by
  refine ⟨fun port entries pre h h' t post => ?_, by rfl, by rfl⟩
  unfold GetPidByPort
  congr 1
  exact scanTables_congr port entries (h :: t) (h' :: t) rfl pre post

/-- C1, counterexample (the claim as stated is false on the code): with
an all-zero tick sample the total is zero, and `GetSystemInfo` performs
the division anyway — both ratios come out as the non-finite `0/0`
(`none`, IEEE NaN), not as the number zero the claim requires. -/
theorem claim_C1_counterexample :
    (GetSystemInfo zeroTickInputs).map (fun s => (s.cpuUser, s.cpuFree)) =
      some (none, none) ∧
    some ((none : Option ℚ), (none : Option ℚ)) ≠
      some (some (0 : ℚ), some (0 : ℚ)) :=
  ⟨rfl, by simp⟩

/-- C1, amended: the ratios are `user/total` and `idle/total` by
unguarded `float64` division; when the sampled total is zero the
division is still performed and the reported ratio is the non-finite
`0/0` (NaN), not zero. -/
theorem claim_C1_amended (inp : SysInputs) (u i t : ℕ)
    (h : CpuUsage inp.statContent = some (u, i, t)) :
    (GetSystemInfo inp).map (fun s => (s.cpuUser, s.cpuFree)) =
      some (floatDiv u t, floatDiv i t) ∧
    (t = 0 → floatDiv u t = none ∧ floatDiv i t = none) := by
  constructor
  · unfold GetSystemInfo
    rw [h]
    rfl
  · intro ht; subst ht; exact ⟨rfl, rfl⟩


/-- Witness for the amended C1 at the all-zero tick sample. -/
theorem claim_C1_witness :
    (GetSystemInfo zeroTickInputs).map (fun s => (s.cpuUser, s.cpuFree)) =
      some (floatDiv 0 0, floatDiv 0 0) ∧
    ((0 : ℕ) = 0 → floatDiv 0 0 = none ∧ floatDiv 0 0 = none) :=
  claim_C1_amended zeroTickInputs 0 0 0 (by rfl)

/-- C4, refuted (code bug): `GetSystemInfo` is not total.  When the text
of `/proc/stat` contains a blank line before the aggregate `cpu` line
(here: the text is a single newline), `strings.Fields` of that line is
empty and `CpuUsage` indexes `fields[0]` out of range — the snapshot
panics instead of returning a populated record. -/
theorem claim_C4 :
    CpuUsage "\n" = none ∧ GetSystemInfo blankStatInputs = none :=
  ⟨rfl, rfl⟩

/-! ## Lemmas about the topology reader -/

lemma specCollapse_cons_ne (c : Char) (rest : List Char) (hc : c ≠ ' ') :
    specCollapse (c :: rest) = c :: specCollapse rest := by
  cases rest with
  | nil => simp [specCollapse, hc]
  | cons c2 r2 => simp [specCollapse, hc]

lemma collapseAux_spec : ∀ l : List Char,
    collapseAux false l = specCollapse l ∧
    ' ' :: collapseAux true l = specCollapse (' ' :: l)
  | [] => ⟨rfl, rfl⟩
  | c :: rest => by
    obtain ⟨ihP, ihQ⟩ := collapseAux_spec rest
    by_cases hc : c = ' '
    · subst hc
      refine ⟨?_, ?_⟩
      · simpa [collapseAux] using ihQ
      · calc ' ' :: collapseAux true (' ' :: rest)
            = ' ' :: collapseAux true rest := by simp [collapseAux]
          _ = specCollapse (' ' :: rest) := ihQ
          _ = specCollapse (' ' :: ' ' :: rest) := by rfl
    · refine ⟨?_, ?_⟩
      · show collapseAux false (c :: rest) = specCollapse (c :: rest)
        rw [specCollapse_cons_ne c rest hc]
        simp [collapseAux, hc, ihP]
      · show ' ' :: collapseAux true (c :: rest) = specCollapse (' ' :: c :: rest)
        simp [collapseAux, specCollapse, hc, ihP, specCollapse_cons_ne]

lemma kvStep_track (st : CpuAcc) (k v : String) :
    (kvStep st k v).cpu =
      (if k = "physical id" then insertOnce v st.cpu else st.cpu) ∧
    (kvStep st k v).core =
      (if k = "core id" then insertOnce (st.cpuID ++ "/" ++ v) st.core
        else st.core) ∧
    (kvStep st k v).cpuID = (if k = "physical id" then v else st.cpuID) := by
  by_cases h1 : k = "physical id"
  · subst h1; simp [kvStep]
  · by_cases h2 : k = "core id"
    · subst h2; simp [kvStep]
    · simp only [kvStep, if_neg h1, if_neg h2]
      refine ⟨?_, ?_, ?_⟩ <;> (split_ifs <;> rfl)

lemma runKVs_track : ∀ (kvs : List (String × String)) (st : CpuAcc),
    (runKVs st kvs).cpu = insertAll st.cpu (physSeq kvs) ∧
    (runKVs st kvs).core =
      insertAll st.core ((pairSeq kvs st.cpuID).map encodeKey) ∧
    (runKVs st kvs).cpuID = lastPhys st.cpuID kvs
  | [], st => ⟨rfl, rfl, rfl⟩
  | (k, v) :: rest, st => by
    obtain ⟨hcpu, hcore, hid⟩ := runKVs_track rest (kvStep st k v)
    obtain ⟨tc, tcore, tid⟩ := kvStep_track st k v
    have hrun : runKVs st ((k, v) :: rest) = runKVs (kvStep st k v) rest := rfl
    by_cases h1 : k = "physical id"
    · have h2 : k ≠ "core id" := by subst h1; decide
      refine ⟨?_, ?_, ?_⟩
      · rw [hrun, hcpu, tc, if_pos h1]
        simp [physSeq, h1, insertAll]
      · rw [hrun, hcore, tcore, if_neg h2, tid, if_pos h1]
        simp [pairSeq, h1]
      · rw [hrun, hid, tid, if_pos h1]
        simp [lastPhys, h1]
    · by_cases h2 : k = "core id"
      · refine ⟨?_, ?_, ?_⟩
        · rw [hrun, hcpu, tc, if_neg h1]
          simp [physSeq, h1]
        · rw [hrun, hcore, tcore, if_pos h2, tid, if_neg h1]
          simp [pairSeq, h1, h2, insertAll, encodeKey]
        · rw [hrun, hid, tid, if_neg h1]
          simp [lastPhys, h1]
      · refine ⟨?_, ?_, ?_⟩
        · rw [hrun, hcpu, tc, if_neg h1]
          simp [physSeq, h1]
        · rw [hrun, hcore, tcore, if_neg h2, tid, if_neg h1]
          simp [pairSeq, h1, h2]
        · rw [hrun, hid, tid, if_neg h1]
          simp [lastPhys, h1]

lemma insertOnce_toFinset (x : String) (l : List String) :
    (insertOnce x l).toFinset = insert x l.toFinset := by
  unfold insertOnce
  split_ifs with h
  · exact (Finset.insert_eq_self.mpr (List.mem_toFinset.mpr h)).symm
  · simp

lemma insertOnce_nodup (x : String) (l : List String) (h : l.Nodup) :
    (insertOnce x l).Nodup := by
  unfold insertOnce
  split_ifs with hx
  · exact h
  · exact List.nodup_cons.mpr ⟨hx, h⟩

lemma insertAll_toFinset : ∀ (l acc : List String),
    (insertAll acc l).toFinset = acc.toFinset ∪ l.toFinset
  | [], acc => by simp [insertAll]
  | x :: t, acc => by
    have ih := insertAll_toFinset t (insertOnce x acc)
    have hstep : insertAll acc (x :: t) = insertAll (insertOnce x acc) t := rfl
    rw [hstep, ih, insertOnce_toFinset, List.toFinset_cons,
      Finset.insert_union, Finset.union_insert]

lemma insertAll_nodup : ∀ (l acc : List String), acc.Nodup →
    (insertAll acc l).Nodup
  | [], _, h => h
  | x :: t, acc, h => insertAll_nodup t (insertOnce x acc) (insertOnce_nodup x acc h)

lemma insertAll_nil_length (l : List String) :
    (insertAll [] l).length = l.dedup.length := by
  have h1 : (insertAll [] l).toFinset = l.toFinset := by
    rw [insertAll_toFinset]; simp
  have h2 : (insertAll [] l).Nodup := insertAll_nodup l [] List.nodup_nil
  rw [← List.toFinset_card_of_nodup h2, h1, List.card_toFinset]

lemma runCpuFrom_keyVals : ∀ (lines : List String) (st0 st : CpuAcc),
    runCpuFrom st0 lines = some st → st = runKVs st0 (keyVals lines)
  | [], st0, st, h => by
    simp only [runCpuFrom, Option.some.injEq] at h
    rw [← h]; rfl
  | line :: rest, st0, st, h => by
    cases e2 : cpuSplit2 line with
    | some kv =>
      obtain ⟨k, v⟩ := kv
      have hstep : stepCpu st0 line = some (kvStep st0 k v) := by
        simp [stepCpu, e2]
      simp only [runCpuFrom, hstep] at h
      have ih := runCpuFrom_keyVals rest (kvStep st0 k v) st h
      have hkv : keyVals (line :: rest) = (k, v) :: keyVals rest := by
        simp [keyVals, e2]
      rw [hkv]
      exact ih
    | none =>
      have hkv : keyVals (line :: rest) = keyVals rest := by
        simp [keyVals, e2]
      cases hs : stepCpu st0 line with
      | none => simp [runCpuFrom, hs] at h
      | some st1 =>
        have hst1 : st1 = st0 := by
          simp only [stepCpu, e2] at hs
          split_ifs at hs <;> simp_all
        simp only [runCpuFrom, hs] at h
        rw [hkv]
        exact hst1 ▸ runCpuFrom_keyVals rest st1 st h

lemma getCpuInfo_fields (lines : List String) (n : ℕ) (info : CpuInfo)
    (h : GetCpuInfo (some lines) n = some info) :
    info.cpus = (physSeq (keyVals lines)).dedup.length ∧
    info.cores = ((pairSeq (keyVals lines) "").map encodeKey).dedup.length ∧
    info.threads = n := by
  have h' : (runCpu lines).map (fun st =>
      (⟨st.vendor, st.model, st.speed, st.cache,
        st.cpu.length, st.core.length, n⟩ : CpuInfo)) = some info := h
  cases e : runCpu lines with
  | none => rw [e] at h'; cases h'
  | some st =>
    rw [e] at h'
    simp only [Option.map_some', Option.some.injEq] at h'
    have hst := runCpuFrom_keyVals lines cpuAccInit st e
    obtain ⟨hcpu, hcore, -⟩ := runKVs_track (keyVals lines) cpuAccInit
    rw [← hst] at hcpu hcore
    rw [← h']
    refine ⟨?_, ?_, rfl⟩
    · show st.cpu.length = _
      rw [hcpu]
      exact insertAll_nil_length _
    · show st.core.length = _
      rw [hcore]
      exact insertAll_nil_length _

lemma toFinset_map_list (f : String × String → String) :
    ∀ l : List (String × String), (l.map f).toFinset = l.toFinset.image f
  | [] => by simp
  | x :: t => by simp [toFinset_map_list f t]

lemma strData_append (a b : String) : (a ++ b).data = a.data ++ b.data := by
  cases a; cases b; rfl

lemma slashSplit : ∀ a1 b1 a2 b2 : List Char,
    ('/' : Char) ∉ a1 → ('/' : Char) ∉ a2 →
    a1 ++ '/' :: b1 = a2 ++ '/' :: b2 → a1 = a2 ∧ b1 = b2
  | [], b1, [], b2, _, _, h => by
    simp only [List.nil_append, List.cons.injEq] at h
    exact ⟨rfl, h.2⟩
  | [], b1, c :: a2, b2, _, h2, h => by
    simp only [List.nil_append, List.cons_append, List.cons.injEq] at h
    rw [← h.1] at h2
    exact absurd (List.mem_cons_self _ _) h2
  | c :: a1, b1, [], b2, h1, _, h => by
    simp only [List.nil_append, List.cons_append, List.cons.injEq] at h
    rw [h.1] at h1
    exact absurd (List.mem_cons_self _ _) h1
  | c1 :: a1, b1, c2 :: a2, b2, h1, h2, h => by
    simp only [List.cons_append, List.cons.injEq] at h
    obtain ⟨ha, hb⟩ := slashSplit a1 b1 a2 b2
      (fun m => h1 (List.mem_cons_of_mem _ m))
      (fun m => h2 (List.mem_cons_of_mem _ m)) h.2
    rw [h.1, ha]
    exact ⟨rfl, hb⟩

lemma encode_dedup_length (l : List (String × String))
    (h : ∀ pc ∈ l, ('/' : Char) ∉ pc.1.data) :
    ((l.map encodeKey).dedup).length = l.dedup.length := by
  rw [← List.card_toFinset, ← List.card_toFinset, toFinset_map_list]
  apply Finset.card_image_of_injOn
  intro p hp q hq hpq
  have hp' := h p (List.mem_toFinset.mp hp)
  have hq' := h q (List.mem_toFinset.mp hq)
  have hslash : ("/" : String).data = ['/'] := rfl
  have hdata : p.1.data ++ '/' :: p.2.data = q.1.data ++ '/' :: q.2.data := by
    have hd := congrArg String.data hpq
    simpa [encodeKey, strData_append, hslash] using hd
  obtain ⟨e1, e2⟩ := slashSplit _ _ _ _ hp' hq' hdata
  exact Prod.ext (String.ext e1) (String.ext e2)

lemma seq_nokeys : ∀ (l : List (String × String)) (c : String),
    (∀ kv ∈ l, kv.1 ≠ "physical id" ∧ kv.1 ≠ "core id") →
    physSeq l = [] ∧ pairSeq l c = [] ∧ lastPhys c l = c
  | [], _, _ => ⟨rfl, rfl, rfl⟩
  | (k, v) :: rest, c, h => by
    obtain ⟨h1, h2⟩ := h (k, v) (List.mem_cons_self _ _)
    obtain ⟨p1, p2, p3⟩ := seq_nokeys rest c
      (fun kv hkv => h kv (List.mem_cons_of_mem _ hkv))
    simp [physSeq, pairSeq, lastPhys, h1, h2, p1, p2, p3]

lemma physSeq_append : ∀ l1 l2 : List (String × String),
    physSeq (l1 ++ l2) = physSeq l1 ++ physSeq l2
  | [], _ => rfl
  | (k, v) :: t, l2 => by
    by_cases h : k = "physical id" <;>
      simp [physSeq, h, physSeq_append t l2]

lemma lastPhys_append : ∀ (l1 l2 : List (String × String)) (c : String),
    lastPhys c (l1 ++ l2) = lastPhys (lastPhys c l1) l2
  | [], _, _ => rfl
  | (k, v) :: t, l2, c => by
    by_cases h : k = "physical id" <;>
      simp [lastPhys, h, lastPhys_append t l2]

lemma pairSeq_append : ∀ (l1 l2 : List (String × String)) (c : String),
    pairSeq (l1 ++ l2) c = pairSeq l1 c ++ pairSeq l2 (lastPhys c l1)
  | [], _, _ => rfl
  | (k, v) :: t, l2, c => by
    by_cases h1 : k = "physical id"
    · simp [pairSeq, lastPhys, h1, pairSeq_append t l2]
    · by_cases h2 : k = "core id" <;>
        simp [pairSeq, lastPhys, h1, h2, pairSeq_append t l2]

lemma block_seqs (b : List (String × String)) (hb : BlockOK b) (c : String) :
    ∃ p cid, physSeq b = [p] ∧ pairSeq b c = [(p, cid)] ∧
      lastPhys c b = p ∧ ('/' : Char) ∉ p.data := by
  obtain ⟨p, cid, x, y, z, rfl, hno, hp⟩ := hb
  have hnx : ∀ kv ∈ x, kv.1 ≠ "physical id" ∧ kv.1 ≠ "core id" :=
    fun kv hkv => hno kv (by simp [hkv])
  have hny : ∀ kv ∈ y, kv.1 ≠ "physical id" ∧ kv.1 ≠ "core id" :=
    fun kv hkv => hno kv (by simp [hkv])
  have hnz : ∀ kv ∈ z, kv.1 ≠ "physical id" ∧ kv.1 ≠ "core id" :=
    fun kv hkv => hno kv (by simp [hkv])
  obtain ⟨hx1, hx2, hx3⟩ := seq_nokeys x c hnx
  obtain ⟨hy1, hy2, hy3⟩ := seq_nokeys y p hny
  obtain ⟨hz1, hz2, hz3⟩ := seq_nokeys z p hnz
  refine ⟨p, cid, ?_, ?_, ?_, hp⟩
  · simp [physSeq_append, physSeq, hx1, hy1, hz1]
  · simp [pairSeq_append, pairSeq, lastPhys_append, lastPhys,
      hx2, hx3, hy2, hy3, hz2]
  · simp [lastPhys_append, lastPhys, hx3, hy3, hz3]

lemma dump_seqs {kvs : List (String × String)} {n : ℕ} (hw : WFDump kvs n) :
    ∀ c : String, (pairSeq kvs c).length = n ∧
      physSeq kvs = (pairSeq kvs c).map Prod.fst ∧
      ∀ pc ∈ pairSeq kvs c, ('/' : Char) ∉ pc.1.data := by
  induction hw with
  | nil => exact fun c => ⟨rfl, rfl, by simp [pairSeq]⟩
  | cons b rest n hb hrest ih =>
    intro c
    obtain ⟨p, cid, hphys, hpair, hlast, hpc⟩ := block_seqs b hb c
    obtain ⟨ih1, ih2, ih3⟩ := ih p
    refine ⟨?_, ?_, ?_⟩
    · rw [pairSeq_append, hpair, hlast, List.length_append, ih1]
      simp [Nat.add_comm]
    · rw [physSeq_append, pairSeq_append, hphys, hpair, hlast,
        List.map_append, ih2]
      simp
    · rw [pairSeq_append, hpair, hlast]
      intro pc hpcm
      rcases List.mem_append.mp hpcm with hm | hm
      · simp only [List.mem_singleton] at hm
        subst hm
        exact hpc
      · exact ih3 pc hm

/-- C6: the first-seen model name is kept normalized — the scan collapses
every run of spaces to a single space (proved equal to the
specification's collapse-runs-of-two-or-more description) and
canonicalizes the first hyphen-space to a bare hyphen; in particular
"Intel(R)  Xeon(R)- Platinum" becomes "Intel(R) Xeon(R)-Platinum". -/
theorem claim_C6 :
    (∀ l : List Char, collapseSpaces l = specCollapse l) ∧
    (∀ (st : CpuAcc) (v : String),
      (kvStep st "model name" v).model =
        if st.model = "" then normModel v else st.model) ∧
    normModel "Intel(R)  Xeon(R)- Platinum" = "Intel(R) Xeon(R)-Platinum" :=
  ⟨fun l => (collapseAux_spec l).1, fun st v => rfl, by rfl⟩

/-- C7: the cache-size field accepts only the exact literal form
"digits KB": the value "8192 KB" parses to 8192, the value "8MB" does
not parse (leaving the zero value), the record field is only ever set
from a successful parse while still zero, and every successful parse
comes from a string of that exact shape. -/
theorem claim_C7 :
    cacheOf "8192 KB" = some 8192 ∧ cacheOf "8MB" = none ∧
    (∀ (st : CpuAcc) (v : String),
      (kvStep st "cache size" v).cache =
        if st.cache = 0 then (cacheOf v).getD 0 else st.cache) ∧
    (∀ (s : String) (n : ℕ), cacheOf s = some n → patternKB s n) := by
  refine ⟨by rfl, by rfl, fun st v => rfl, fun s n h => ?_⟩
  simp only [cacheOf] at h
  split_ifs at h with hcond
  · obtain ⟨h1, h2, h3⟩ := hcond
    have hv : natOfDigits (s.data.takeWhile Char.isDigit) 0 = n := by
      injection h
    refine ⟨s.data.takeWhile Char.isDigit, h1,
      fun c hc => List.mem_takeWhile_imp hc, ?_, hv.symm, hv ▸ h3⟩
    conv_lhs => rw [← List.takeWhile_append_dropWhile Char.isDigit s.data]
    rw [h2]

/-- Witness for C7 at the matching input "8192 KB". -/
theorem claim_C7_witness : patternKB "8192 KB" 8192 :=
  claim_C7.2.2.2 "8192 KB" 8192 (by rfl)

/-- C5: `GetCpuInfo` reports `cpus` as the number of distinct
"physical id" values and `cores` as the number of distinct compound
(package, core) keys, each core id paired with the most recently seen
physical id (and, whenever the physical ids are free of the key
separator, that equals the number of distinct pairs); the synthetic dump
with two blocks of physical id 0 and one core id 1 yields cpus = 1 and
cores = 1, not the number of blocks. -/
theorem claim_C5 :
    (∀ (lines : List String) (n : ℕ) (info : CpuInfo),
      GetCpuInfo (some lines) n = some info →
      info.cpus = (physSeq (keyVals lines)).dedup.length ∧
      info.cores = ((pairSeq (keyVals lines) "").map encodeKey).dedup.length ∧
      ((∀ pc ∈ pairSeq (keyVals lines) "", ('/' : Char) ∉ pc.1.data) →
        info.cores = (pairSeq (keyVals lines) "").dedup.length)) ∧
    GetCpuInfo (some demoDumpC5) 4 = some ⟨"", "", "", 0, 1, 1, 4⟩ := by
  refine ⟨fun lines n info h => ?_, by rfl⟩
  obtain ⟨hc, hco, -⟩ := getCpuInfo_fields lines n info h
  exact ⟨hc, hco, fun hsf => by rw [hco, encode_dedup_length _ hsf]⟩

/-- Witness for C5 at the synthetic dump of spec section 8. -/
theorem claim_C5_witness :
    ((⟨"", "", "", 0, 1, 1, 4⟩ : CpuInfo).cpus =
        (physSeq (keyVals demoDumpC5)).dedup.length) ∧
    ((⟨"", "", "", 0, 1, 1, 4⟩ : CpuInfo).cores =
        (pairSeq (keyVals demoDumpC5) "").dedup.length) :=
  ⟨(claim_C5.1 demoDumpC5 4 _ rfl).1,
    (claim_C5.1 demoDumpC5 4 _ rfl).2.2 (by decide)⟩

/-- C8: on a well-formed dump (a concatenation of per-processor blocks,
each with one physical id followed by one core id) read with the
truthful logical-processor count, the produced record satisfies
`cpus ≤ cores` and `cores ≤ threads`; and when the dump cannot be opened
at all, every parse-derived field keeps its zero/empty default. -/
theorem claim_C8 :
    (∀ (lines : List String) (n : ℕ) (info : CpuInfo),
      WFDump (keyVals lines) n → GetCpuInfo (some lines) n = some info →
      info.cpus ≤ info.cores ∧ info.cores ≤ info.threads) ∧
    (∀ n : ℕ, GetCpuInfo none n = some ⟨"", "", "", 0, 0, 0, n⟩) := by
  refine ⟨fun lines n info hw h => ?_, fun n => rfl⟩
  obtain ⟨hc, hco, hth⟩ := getCpuInfo_fields lines n info h
  obtain ⟨hd1, hd2, hd3⟩ := dump_seqs hw ""
  have hcoeq : info.cores = (pairSeq (keyVals lines) "").dedup.length := by
    rw [hco, encode_dedup_length _ hd3]
  constructor
  · rw [hc, hcoeq, hd2, ← List.card_toFinset, ← List.card_toFinset,
      toFinset_map_list]
    exact Finset.card_image_le
  · rw [hcoeq, hth, ← hd1]
    exact List.Sublist.length_le (List.dedup_sublist _)

/-- Witness for C8 at a well-formed two-processor dump (one package, two
cores): 1 ≤ 2 and 2 ≤ 2. -/
theorem claim_C8_witness :
    ((⟨"", "", "", 0, 1, 2, 2⟩ : CpuInfo).cpus ≤
        (⟨"", "", "", 0, 1, 2, 2⟩ : CpuInfo).cores) ∧
    ((⟨"", "", "", 0, 1, 2, 2⟩ : CpuInfo).cores ≤
        (⟨"", "", "", 0, 1, 2, 2⟩ : CpuInfo).threads) := by
  have hwf : WFDump (keyVals demoDumpC8) 2 := by
    have hkv : keyVals demoDumpC8 =
        ([("physical id", "0"), ("core id", "0")] ++
          ([("physical id", "0"), ("core id", "1")] ++ [])) := by rfl
    rw [hkv]
    refine WFDump.cons _ _ _ ?_ (WFDump.cons _ _ _ ?_ WFDump.nil)
    · exact ⟨"0", "0", [], [], [], rfl, by simp, by decide⟩
    · exact ⟨"0", "1", [], [], [], rfl, by simp, by decide⟩
  exact claim_C8.1 demoDumpC8 2 ⟨"", "", "", 0, 1, 2, 2⟩ hwf (by rfl)

end KgoOs
